import Mathlib

/-!
Verification of the git-commit image tagger
(`pkg/skaffold/build/tag/git_commit.go`).

The development shallowly embeds `GenerateFullyQualifiedImageName` and its
helper `changedPaths`.  The go-git library the code calls into is modelled as
an environment of fallible operations (`GitEnv`); `crypto/sha256` is modelled
by an executable SHA-256 over byte lists.
-/

set_option maxRecDepth 100000

namespace SkaffoldGitTag

/-! Section: SHA-256 over byte lists, modelling Go `crypto/sha256`.
Bytes are `Nat` values below 256; words are `Nat` values reduced mod 2^32. -/

def w32 (n : Nat) : Nat := n % 4294967296

def rotr32 (x n : Nat) : Nat := w32 ((x >>> n) ||| (x <<< (32 - n)))

def bnot32 (x : Nat) : Nat := x ^^^ 4294967295

def chF (x y z : Nat) : Nat := (x &&& y) ^^^ (bnot32 x &&& z)

def majF (x y z : Nat) : Nat := (x &&& y) ^^^ (x &&& z) ^^^ (y &&& z)

def bigS0 (x : Nat) : Nat := rotr32 x 2 ^^^ rotr32 x 13 ^^^ rotr32 x 22

def bigS1 (x : Nat) : Nat := rotr32 x 6 ^^^ rotr32 x 11 ^^^ rotr32 x 25

def smallS0 (x : Nat) : Nat := rotr32 x 7 ^^^ rotr32 x 18 ^^^ (x >>> 3)

def smallS1 (x : Nat) : Nat := rotr32 x 17 ^^^ rotr32 x 19 ^^^ (x >>> 10)

def shaK : List Nat :=
  [1116352408, 1899447441, 3049323471, 3921009573, 961987163, 1508970993,
   2453635748, 2870763221, 3624381080, 310598401, 607225278, 1426881987,
   1925078388, 2162078206, 2614888103, 3248222580, 3835390401, 4022224774,
   264347078, 604807628, 770255983, 1249150122, 1555081692, 1996064986,
   2554220882, 2821834349, 2952996808, 3210313671, 3336571891, 3584528711,
   113926993, 338241895, 666307205, 773529912, 1294757372, 1396182291,
   1695183700, 1986661051, 2177026350, 2456956037, 2730485921, 2820302411,
   3259730800, 3345764771, 3516065817, 3600352804, 4094571909, 275423344,
   430227734, 506948616, 659060556, 883997877, 958139571, 1322822218,
   1537002063, 1747873779, 1955562222, 2024104815, 2227730452, 2361852424,
   2428436474, 2756734187, 3204031479, 3329325298]

structure Sha8 where
  a : Nat
  b : Nat
  c : Nat
  d : Nat
  e : Nat
  f : Nat
  g : Nat
  h : Nat

def shaInit : Sha8 :=
  ⟨1779033703, 3144134277, 1013904242, 2773480762,
   1359893119, 2600822924, 528734635, 1541459225⟩

def bytesToWords : List Nat → List Nat
  | b0 :: b1 :: b2 :: b3 :: rest => (((b0 * 256 + b1) * 256 + b2) * 256 + b3) :: bytesToWords rest
  | _ => []

/-- Extend the 16 words of a block to the 64-entry message schedule. -/
def extendSchedule (ws : List Nat) : List Nat :=
  (List.range 48).foldl (fun acc i =>
    acc ++ [w32 (smallS1 (acc.getD (i + 14) 0) + acc.getD (i + 9) 0 +
                 smallS0 (acc.getD (i + 1) 0) + acc.getD i 0)]) ws

def roundStep (s : Sha8) (kw : Nat × Nat) : Sha8 :=
  let t1 := w32 (s.h + bigS1 s.e + chF s.e s.f s.g + kw.1 + kw.2)
  let t2 := w32 (bigS0 s.a + majF s.a s.b s.c)
  ⟨w32 (t1 + t2), s.a, s.b, s.c, w32 (s.d + t1), s.e, s.f, s.g⟩

def compress (s : Sha8) (block : List Nat) : Sha8 :=
  let t := (shaK.zip (extendSchedule (bytesToWords block))).foldl roundStep s
  ⟨w32 (s.a + t.a), w32 (s.b + t.b), w32 (s.c + t.c), w32 (s.d + t.d),
   w32 (s.e + t.e), w32 (s.f + t.f), w32 (s.g + t.g), w32 (s.h + t.h)⟩

/-- Encode `n` as `k` big-endian bytes. -/
def beBytes : Nat → Nat → List Nat
  | _, 0 => []
  | n, k + 1 => beBytes (n / 256) k ++ [n % 256]

def toBlocksF : Nat → List Nat → List (List Nat)
  | 0, _ => []
  | _, [] => []
  | fuel + 1, b :: rest => (b :: rest.take 63) :: toBlocksF fuel (rest.drop 63)

/-- Split a byte list into successive 64-byte blocks. -/
def toBlocks (l : List Nat) : List (List Nat) := toBlocksF l.length l

/-- SHA-256 padding: `0x80`, zeros to 56 mod 64, then the 64-bit bit length. -/
def padBytes (msg : List Nat) : List Nat :=
  msg ++ 128 :: List.replicate ((64 - (msg.length + 9) % 64) % 64) 0 ++ beBytes (msg.length * 8) 8

def sha256 (msg : List Nat) : List Nat :=
  let s := (toBlocks (padBytes msg)).foldl compress shaInit
  beBytes s.a 4 ++ beBytes s.b 4 ++ beBytes s.c 4 ++ beBytes s.d 4 ++
  beBytes s.e 4 ++ beBytes s.f 4 ++ beBytes s.g 4 ++ beBytes s.h 4

def hexDigit (n : Nat) : Char := if n < 10 then Char.ofNat (48 + n) else Char.ofNat (87 + n)

/-- Lowercase hex encoding of a byte list, as `encoding/hex.EncodeToString`. -/
def hexEncode (l : List Nat) : String :=
  String.mk ((l.map fun b => [hexDigit (b / 16), hexDigit (b % 16)]).flatten)

/-- FIPS 180-4 test vector: the SHA-256 digest of the empty message. -/
theorem sha256_empty_vector :
    hexEncode (sha256 []) = "e3b0c44298fc1c149afbf4c8996fb92427ae41e4649b934ca495991b7852b855" := by
  decide

/-- FIPS 180-4 test vector: the SHA-256 digest of "abc". -/
theorem sha256_abc_vector :
    hexEncode (sha256 [97, 98, 99]) = "ba7816bf8f01cfea414140de5dae2223b00361a396177a9cb410ff61f20015ad" := by
  decide

/-! Section: byte encoding of strings (Go strings are UTF-8 byte slices). -/

def charUtf8 (c : Char) : List Nat :=
  let n := c.toNat
  if n < 128 then [n]
  else if n < 2048 then [192 + n / 64, 128 + n % 64]
  else if n < 65536 then [224 + n / 4096, 128 + n / 64 % 64, 128 + n % 64]
  else [240 + n / 262144, 128 + n / 4096 % 64, 128 + n / 64 % 64, 128 + n % 64]

def strBytes (s : String) : List Nat := (s.data.map charUtf8).flatten

/-! Section: the go-git data model used by the tagger. -/

/-- go-git `StatusCode`: the per-side state of a file in a `FileStatus`. -/
inductive StatusCode
  | unmodified
  | untracked
  | modified
  | added
  | deleted
  | renamed
  | copied
  | updatedButUnmerged
deriving DecidableEq, Repr

/-- The single-character short-status encoding of a `StatusCode`
(go-git represents the code as this byte directly). -/
def StatusCode.toChar : StatusCode → Char
  | .unmodified => ' '
  | .untracked => '?'
  | .modified => 'M'
  | .added => 'A'
  | .deleted => 'D'
  | .renamed => 'R'
  | .copied => 'C'
  | .updatedButUnmerged => 'U'

/-- go-git `FileStatus`: staging-side and worktree-side status codes. -/
structure FileStatus where
  staging : StatusCode
  worktree : StatusCode
deriving DecidableEq, Repr

/-- go-git `Status` is `map[string]*FileStatus`; the map is modelled as an
association list (its iteration order is immaterial, see the permutation
theorems below). -/
abbrev GitStatus := List (String × FileStatus)

/-- A tag reference: target hash (`t.Hash()`, 20 bytes) and the short name
(`t.Name().Short()`). -/
structure TagRef where
  hash : List Nat
  shortName : String
deriving DecidableEq, Repr

/-- go-git `Status.IsClean` (library dependency, modelled from go-git v4):
clean iff every entry has both worktree and staging codes `Unmodified`. -/
def isClean (s : GitStatus) : Bool :=
  s.all fun e => decide (e.2.worktree = StatusCode.unmodified) &&
                 decide (e.2.staging = StatusCode.unmodified)

/-- Go map indexing `status[path]` on the association list (keys of a Go map
are unique; a present key returns its record). -/
def lookupFS : GitStatus → String → FileStatus
  | [], _ => ⟨StatusCode.unmodified, StatusCode.unmodified⟩
  | e :: rest, p => if p = e.1 then e.2 else lookupFS rest p

/-- Lexicographic comparison of character lists; on UTF-8 strings this agrees
with Go's byte-wise string order used by `sort.Strings`. -/
def charListLe : List Char → List Char → Bool
  | [], _ => true
  | _ :: _, [] => false
  | a :: as, b :: bs => if a = b then charListLe as bs else decide (a < b)

/-- Byte-wise string order, as a computable relation. -/
def strLeB (a b : String) : Bool := charListLe a.data b.data

theorem charListLe_total (as bs : List Char) : charListLe as bs = true ∨ charListLe bs as = true := by
  induction as generalizing bs with
  | nil => exact Or.inl rfl
  | cons a as ih =>
    cases bs with
    | nil => exact Or.inr rfl
    | cons b bs =>
      by_cases hab : a = b
      · subst hab
        simpa [charListLe] using ih bs
      · rcases lt_or_gt_of_ne hab with hlt | hgt
        · exact Or.inl (by simp [charListLe, hab, hlt])
        · exact Or.inr (by simp [charListLe, Ne.symm hab, hgt])

theorem charListLe_trans (as bs cs : List Char) (h1 : charListLe as bs = true)
    (h2 : charListLe bs cs = true) : charListLe as cs = true := by
  induction as generalizing bs cs with
  | nil => rfl
  | cons a as ih =>
    cases bs with
    | nil => simp [charListLe] at h1
    | cons b bs =>
      cases cs with
      | nil => simp [charListLe] at h2
      | cons c cs =>
        simp only [charListLe] at h1 h2 ⊢
        by_cases hab : a = b
        · subst hab
          by_cases hac : a = c
          · subst hac
            rw [if_pos rfl] at h1 h2 ⊢
            exact ih bs cs h1 h2
          · rw [if_pos rfl] at h1
            rw [if_neg hac] at h2 ⊢
            exact h2
        · rw [if_neg hab] at h1
          by_cases hbc : b = c
          · subst hbc
            rw [if_neg hab]
            exact h1
          · rw [if_neg hbc] at h2
            have hlt : a < c := lt_trans (of_decide_eq_true h1) (of_decide_eq_true h2)
            rw [if_neg (ne_of_lt hlt)]
            exact decide_eq_true hlt

theorem charListLe_antisymm (as bs : List Char) (h1 : charListLe as bs = true)
    (h2 : charListLe bs as = true) : as = bs := by
  induction as generalizing bs with
  | nil =>
    cases bs with
    | nil => rfl
    | cons b bs => simp [charListLe] at h2
  | cons a as ih =>
    cases bs with
    | nil => simp [charListLe] at h1
    | cons b bs =>
      simp only [charListLe] at h1 h2
      by_cases hab : a = b
      · subst hab
        rw [if_pos rfl] at h1 h2
        rw [ih bs h1 h2]
      · rw [if_neg hab] at h1
        rw [if_neg (Ne.symm hab)] at h2
        exact absurd (of_decide_eq_true h2) (not_lt_of_gt (of_decide_eq_true h1))

instance : IsTotal String (fun a b => strLeB a b = true) :=
  ⟨fun a b => charListLe_total a.data b.data⟩

instance : IsTrans String (fun a b => strLeB a b = true) :=
  ⟨fun a b c => charListLe_trans a.data b.data c.data⟩

instance : IsAntisymm String (fun a b => strLeB a b = true) :=
  ⟨fun a b h1 h2 => by
    cases a; cases b
    exact congrArg String.mk (charListLe_antisymm _ _ h1 h2)⟩

/-- Model of `changedPaths` from git_commit.go: the paths whose worktree status is not
`Unmodified`, sorted (`sort.Strings`). -/
def changedPaths (status : GitStatus) : List String :=
  List.insertionSort (fun a b => strLeB a b = true)
    ((status.filter fun e => decide (e.2.worktree ≠ StatusCode.unmodified)).map Prod.fst)

/-- The bytes of `fmt.Sprintf("%c %s", status, changedPath)`. -/
def statusLineBytes (c : StatusCode) (path : String) : List Nat :=
  strBytes (String.mk [c.toChar, ' '] ++ path)

/-- The hashing loop of the dirty case: fold over the given paths, feeding the
status line and, unless the path is deleted, the file's content read through
`rd`; the first read failure aborts. The accumulator is the byte stream fed
to the digest so far. -/
def feedPaths (rd : String → Except String (List Nat)) (status : GitStatus) :
    List String → List Nat → Except String (List Nat)
  | [], acc => Except.ok acc
  | p :: rest, acc =>
    let st := (lookupFS status p).worktree
    let acc2 := acc ++ statusLineBytes st p
    if st = StatusCode.deleted then feedPaths rd status rest acc2
    else
      match rd p with
      | Except.error e => Except.error e
      | Except.ok content => feedPaths rd status rest (acc2 ++ content)

/-- The whole byte stream hashed in the dirty case. -/
def dirtyFeed (rd : String → Except String (List Nat)) (status : GitStatus) :
    Except String (List Nat) :=
  feedPaths rd status (changedPaths status) []

/-- Go string slicing `s[0:n]` by byte index (strings here are ASCII, so char
index and byte index coincide): `none` models the out-of-range panic. -/
def goSliceTo (s : String) (n : Nat) : Option String :=
  if n ≤ s.data.length then some (String.mk (s.data.take n)) else none

/-- The first `n` characters of a string (total counterpart of `goSliceTo`). -/
def strTake (s : String) (n : Nat) : String := String.mk (s.data.take n)

/-! Section: the environment — every go-git / filesystem operation the function
calls, each of which can fail. -/

/-- A wrapped error as built by `errors.Wrap(cause, stage)`. -/
structure GoErr where
  stage : String
  cause : String
deriving DecidableEq, Repr

/-- The Go return value `(string, error)`, plus the runtime-panic outcome. -/
inductive GoOutcome
  | ret (tag : String) (err : Option GoErr)
  | panicked
deriving DecidableEq, Repr

structure Options where
  imageName : String
deriving DecidableEq, Repr

/-- Results of the repository operations for one invocation:
`openErr` — `git.PlainOpenWithOptions`; `worktreeErr` — `repo.Worktree()`;
`statusRes` — `w.Status()`; `headRes` — `repo.Head()` (the 20 hash bytes);
`tagsRes` — `repo.Tags()` (`Except.error` when the call itself fails, else
the references the iterator yields paired with an optional mid-iteration
error); `readFile` — `w.Filesystem.Open` plus `io.Copy` for one path. -/
structure GitEnv where
  openErr : Option String
  worktreeErr : Option String
  statusRes : Except String GitStatus
  headRes : Except String (List Nat)
  tagsRes : Except String (List TagRef × Option String)
  readFile : String → Except String (List Nat)

/-- Shallow embedding of `GitCommit.GenerateFullyQualifiedImageName`.
The `.panicked` outcome in the clean branch models the source's
`tagrefs, _ := repo.Tags()`: the error is discarded, so a failing `Tags()`
leaves `tagrefs` nil and the following `ForEach` dereferences nil. -/
def generateFullyQualifiedImageName (env : GitEnv) (opts : Options) : GoOutcome :=
  match env.openErr with
  | some e => .ret "" (some ⟨"opening git repo", e⟩)
  | none =>
    match env.worktreeErr with
    | some e => .ret "" (some ⟨"reading worktree", e⟩)
    | none =>
      match env.statusRes with
      | .error e => .ret "" (some ⟨"reading status", e⟩)
      | .ok status =>
        match env.headRes with
        | .error e => .ret "" (some ⟨"determining current git commit", e⟩)
        | .ok headHash =>
          match goSliceTo (hexEncode headHash) 7 with
          | none => .panicked
          | some shortHash =>
            if isClean status then
              match env.tagsRes with
              | .error _ => .panicked
              | .ok (refs, iterErr) =>
                match iterErr with
                | some e => .ret "" (some ⟨"determining git tag", e⟩)
                | none =>
                  .ret (opts.imageName ++ ":" ++
                    refs.foldl (fun cur t => if t.hash = headHash then t.shortName else cur)
                      shortHash) none
            else
              match dirtyFeed env.readFile status with
              | .error e => .ret "" (some ⟨"reading diff", e⟩)
              | .ok feed =>
                match goSliceTo (hexEncode (sha256 feed)) 16 with
                | none => .panicked
                | some dirtyHash =>
                  .ret (opts.imageName ++ ":" ++ shortHash ++ "-dirty-" ++ dirtyHash) none

/-- The dirty-hash input as the specification describes it: for each changed
path in sorted order, the bytes of the status line `"<statusChar> <path>"`,
followed, unless the path's status is deleted, by the file's full content. -/
def specDirtyFeed (status : GitStatus) (contents : String → List Nat) : List Nat :=
  ((changedPaths status).map fun p =>
    statusLineBytes (lookupFS status p).worktree p ++
      (if (lookupFS status p).worktree = StatusCode.deleted then [] else contents p)).flatten

/-! Section: helper lemmas. -/

theorem goSliceTo_eq_some (s : String) (n : Nat) (h : n ≤ s.data.length) :
    goSliceTo s n = some (strTake s n) := by
  unfold goSliceTo strTake
  rw [if_pos h]

theorem hexEncode_data_length (l : List Nat) : (hexEncode l).data.length = 2 * l.length := by
  induction l with
  | nil => rfl
  | cons b rest ih =>
    simp only [hexEncode, List.map_cons, List.flatten_cons] at *
    simp only [List.length_append, List.length_cons, List.length_nil] at *
    omega

theorem beBytes_length (k n : Nat) : (beBytes n k).length = k := by
  induction k generalizing n with
  | zero => rfl
  | succ k ih => simp [beBytes, ih]

theorem sha256_length (m : List Nat) : (sha256 m).length = 32 := by
  simp [sha256, beBytes_length]

/-- When every non-deleted path in `l` reads back `contents`, the hashing loop
succeeds and appends, for each path, its status line and (for non-deleted
paths) its content. -/
theorem feedPaths_ok_of_reads (rd : String → Except String (List Nat)) (status : GitStatus)
    (contents : String → List Nat) (l : List String) (acc : List Nat)
    (hread : ∀ p ∈ l, (lookupFS status p).worktree ≠ StatusCode.deleted →
      rd p = Except.ok (contents p)) :
    feedPaths rd status l acc = Except.ok (acc ++
      (l.map fun p => statusLineBytes (lookupFS status p).worktree p ++
        (if (lookupFS status p).worktree = StatusCode.deleted then [] else contents p)).flatten) := by
  induction l generalizing acc with
  | nil => simp [feedPaths]
  | cons p rest ih =>
    have hrest : ∀ q ∈ rest, (lookupFS status q).worktree ≠ StatusCode.deleted →
        rd q = Except.ok (contents q) := fun q hq => hread q (List.mem_cons_of_mem _ hq)
    by_cases hdel : (lookupFS status p).worktree = StatusCode.deleted
    · simp only [feedPaths, hdel, if_pos rfl, ih _ hrest]
      simp [hdel, List.append_assoc]
    · have hp := hread p (List.mem_cons_self _ _) hdel
      simp only [feedPaths, if_neg hdel, hp, ih _ hrest]
      simp [hdel, List.append_assoc]

/-- The hashing loop only extends its accumulator. -/
theorem feedPaths_acc_grows (rd : String → Except String (List Nat)) (status : GitStatus)
    (l : List String) (acc out : List Nat)
    (h : feedPaths rd status l acc = Except.ok out) : ∃ t, out = acc ++ t := by
  induction l generalizing acc with
  | nil => exact ⟨[], by simpa [feedPaths] using h.symm⟩
  | cons p rest ih =>
    by_cases hdel : (lookupFS status p).worktree = StatusCode.deleted
    · simp only [feedPaths, hdel, if_pos rfl] at h
      obtain ⟨t, ht⟩ := ih _ h
      exact ⟨statusLineBytes StatusCode.deleted p ++ t, by
        simpa [List.append_assoc, hdel] using ht⟩
    · simp only [feedPaths, if_neg hdel] at h
      match hrd : rd p with
      | Except.error e => rw [hrd] at h; cases h
      | Except.ok content =>
        rw [hrd] at h
        obtain ⟨t, ht⟩ := ih _ h
        exact ⟨statusLineBytes (lookupFS status p).worktree p ++ content ++ t, by
          simpa [List.append_assoc] using ht⟩

/-- The hashing loop never invokes the reader on a deleted path: its outcome
only depends on the reader's values at the non-deleted paths of the list. -/
theorem feedPaths_ext (rd rd' : String → Except String (List Nat)) (status : GitStatus)
    (l : List String) (acc : List Nat)
    (hagree : ∀ p ∈ l, (lookupFS status p).worktree ≠ StatusCode.deleted → rd p = rd' p) :
    feedPaths rd status l acc = feedPaths rd' status l acc := by
  induction l generalizing acc with
  | nil => rfl
  | cons p rest ih =>
    have hrest : ∀ q ∈ rest, (lookupFS status q).worktree ≠ StatusCode.deleted →
        rd q = rd' q := fun q hq => hagree q (List.mem_cons_of_mem _ hq)
    by_cases hdel : (lookupFS status p).worktree = StatusCode.deleted
    · simp only [feedPaths, hdel, if_pos rfl]
      exact ih _ hrest
    · simp only [feedPaths, if_neg hdel, hagree p (List.mem_cons_self _ _) hdel]
      cases rd' p with
      | error e => rfl
      | ok content => exact ih _ hrest

/-- A successful feed contains the status line of every deleted path of the
list as a contiguous segment. -/
theorem feedPaths_contains_deleted (rd : String → Except String (List Nat)) (status : GitStatus)
    (l : List String) (acc out : List Nat) (p : String) (hp : p ∈ l)
    (hdel : (lookupFS status p).worktree = StatusCode.deleted)
    (h : feedPaths rd status l acc = Except.ok out) :
    ∃ u v, out = u ++ statusLineBytes StatusCode.deleted p ++ v := by
  induction l generalizing acc with
  | nil => cases hp
  | cons q rest ih =>
    rcases List.mem_cons.mp hp with rfl | hmem
    · simp only [feedPaths, hdel, if_pos rfl] at h
      obtain ⟨t, ht⟩ := feedPaths_acc_grows _ _ _ _ _ h
      exact ⟨acc, t, by simpa [List.append_assoc] using ht⟩
    · by_cases hq : (lookupFS status q).worktree = StatusCode.deleted
      · simp only [feedPaths, hq, if_pos rfl] at h
        exact ih _ hmem h
      · simp only [feedPaths, if_neg hq] at h
        match hrd : rd q with
        | Except.error e => rw [hrd] at h; cases h
        | Except.ok content => rw [hrd] at h; exact ih _ hmem h

theorem all_eq_of_perm (l1 l2 : List (String × FileStatus)) (h : l1.Perm l2)
    (f : String × FileStatus → Bool) : l1.all f = l2.all f := by
  cases h2 : l2.all f
  · rw [List.all_eq_false] at *
    obtain ⟨x, hx, hfx⟩ := h2
    exact ⟨x, h.mem_iff.mpr hx, hfx⟩
  · rw [List.all_eq_true] at *
    exact fun x hx => h2 x (h.mem_iff.mp hx)

theorem isClean_eq_of_perm (s1 s2 : GitStatus) (h : s1.Perm s2) : isClean s1 = isClean s2 :=
  all_eq_of_perm s1 s2 h _

/-- Sorting makes `changedPaths` insensitive to the status map's iteration
order. -/
theorem changedPaths_eq_of_perm (s1 s2 : GitStatus) (h : s1.Perm s2) :
    changedPaths s1 = changedPaths s2 := by
  refine List.eq_of_perm_of_sorted ?_ (List.sorted_insertionSort _ _)
    (List.sorted_insertionSort _ _)
  exact (List.perm_insertionSort _ _).trans
    (((h.filter _).map Prod.fst).trans (List.perm_insertionSort _ _).symm)

/-- Map lookup is insensitive to iteration order when keys are unique. -/
theorem lookupFS_eq_of_perm (s1 s2 : GitStatus) (h : s1.Perm s2) (p : String)
    (hnd : (s1.map Prod.fst).Nodup) : lookupFS s1 p = lookupFS s2 p := by
  induction h with
  | nil => rfl
  | cons e hrest ih =>
    simp only [lookupFS]
    by_cases hp : p = e.1
    · simp [hp]
    · simp only [if_neg hp]
      exact ih (by simpa using (List.nodup_cons.mp (by simpa using hnd)).2)
  | swap x y l =>
    have hxy : y.1 ≠ x.1 := by
      simp only [List.map_cons, List.nodup_cons, List.mem_cons] at hnd
      exact fun hc => hnd.1 (Or.inl hc)
    simp only [lookupFS]
    by_cases hpy : p = y.1
    · have hpx : ¬p = x.1 := fun hc => hxy (hpy.symm.trans hc)
      rw [if_pos hpy, if_neg hpx, if_pos hpy]
    · by_cases hpx : p = x.1
      · rw [if_neg hpy, if_pos hpx, if_pos hpx]
      · rw [if_neg hpy, if_neg hpx, if_neg hpx, if_neg hpy]
  | trans h1 h2 ih1 ih2 =>
    exact (ih1 hnd).trans (ih2 (((h1.map Prod.fst).nodup_iff).mp hnd))

/-- The hashing loop reads the status map only through lookups. -/
theorem feedPaths_congr_status (rd : String → Except String (List Nat)) (s1 s2 : GitStatus)
    (hl : ∀ p, lookupFS s1 p = lookupFS s2 p) (l : List String) (acc : List Nat) :
    feedPaths rd s1 l acc = feedPaths rd s2 l acc := by
  induction l generalizing acc with
  | nil => rfl
  | cons p rest ih =>
    simp only [feedPaths, hl p]
    by_cases hdel : (lookupFS s2 p).worktree = StatusCode.deleted
    · rw [if_pos hdel, if_pos hdel]
      exact ih _
    · rw [if_neg hdel, if_neg hdel]
      cases rd p with
      | error e => rfl
      | ok content => exact ih _

/-- The `ForEach` fold over tag references keeps the short name of the last
reference whose hash equals HEAD's, and the initial value when none does. -/
theorem foldl_tagPick (hh : List Nat) (refs : List TagRef) (init : String) :
    refs.foldl (fun cur t => if t.hash = hh then t.shortName else cur) init =
      ((refs.reverse.find? fun t => decide (t.hash = hh)).map TagRef.shortName).getD init := by
  induction refs generalizing init with
  | nil => rfl
  | cons t ts ih =>
    simp only [List.foldl_cons, List.reverse_cons, ih, List.find?_append]
    cases hf : ts.reverse.find? (fun t => decide (t.hash = hh)) with
    | some x => simp
    | none =>
      by_cases ht : t.hash = hh
      · simp [List.find?_cons_of_pos, ht]
      · simp [List.find?_cons_of_neg, ht]

theorem isClean_eq_false_of_changed (status : GitStatus)
    (h : ∃ e ∈ status, e.2.worktree ≠ StatusCode.unmodified) : isClean status = false := by
  obtain ⟨e, he, hne⟩ := h
  unfold isClean
  rw [List.all_eq_false]
  exact ⟨e, he, by simp [hne]⟩

theorem changedPaths_eq_nil_of_unmodified (status : GitStatus)
    (h : ∀ e ∈ status, e.2.worktree = StatusCode.unmodified) : changedPaths status = [] := by
  unfold changedPaths
  have : status.filter (fun e => decide (e.2.worktree ≠ StatusCode.unmodified)) = [] := by
    rw [List.filter_eq_nil_iff]
    intro e he
    simp [h e he]
  rw [this]
  rfl

/-! Section: claim theorems. -/

/-- C2: for a clean working tree with no VCS tags pointing at HEAD,
`GenerateFullyQualifiedImageName` returns exactly `imageName ++ ":" ++` the
first 7 hex characters (lowercase) of the HEAD commit identifier. -/
theorem C2_clean_no_tags (status : GitStatus) (headHash : List Nat) (refs : List TagRef)
    (rd : String → Except String (List Nat)) (opts : Options)
    (hclean : isClean status = true) (hlen : headHash.length = 20)
    (hnone : ∀ t ∈ refs, t.hash ≠ headHash) :
    generateFullyQualifiedImageName
        ⟨none, none, Except.ok status, Except.ok headHash, Except.ok (refs, none), rd⟩ opts =
      GoOutcome.ret (opts.imageName ++ ":" ++ strTake (hexEncode headHash) 7) none := by
  have h7 : 7 ≤ (hexEncode headHash).data.length := by
    rw [hexEncode_data_length, hlen]; omega
  simp only [generateFullyQualifiedImageName, goSliceTo_eq_some _ _ h7, hclean, if_true]
  have hfind : refs.reverse.find? (fun t => decide (t.hash = headHash)) = none := by
    rw [List.find?_eq_none]
    intro t ht
    simp [hnone t (List.mem_reverse.mp ht)]
  rw [foldl_tagPick, hfind]
  rfl

/-- Witness for C2 at a concrete clean repository. -/
theorem C2_clean_no_tags_witness :
    generateFullyQualifiedImageName
        ⟨none, none, Except.ok [("a.txt", ⟨StatusCode.unmodified, StatusCode.unmodified⟩)],
         Except.ok (171 :: List.replicate 19 205),
         Except.ok ([⟨List.replicate 20 7, "v9"⟩], none), fun _ => Except.error "gone"⟩
        ⟨"myapp"⟩ =
      GoOutcome.ret "myapp:abcdcdc" none := by
  have h := C2_clean_no_tags
    [("a.txt", ⟨StatusCode.unmodified, StatusCode.unmodified⟩)]
    (171 :: List.replicate 19 205) [⟨List.replicate 20 7, "v9"⟩]
    (fun _ => Except.error "gone") ⟨"myapp"⟩ (by decide) (by decide) (by decide)
  exact h.trans (by decide)

/-- C7: when the status is clean, the base tag defaults to the 7-character
short hash and each enumerated tag reference whose target equals HEAD's
commit replaces it, so the last matching reference in iteration order wins
(and with no match the short hash remains). -/
theorem C7_clean_tag_selection (status : GitStatus) (headHash : List Nat) (refs : List TagRef)
    (rd : String → Except String (List Nat)) (opts : Options)
    (hclean : isClean status = true) (hlen : headHash.length = 20) :
    generateFullyQualifiedImageName
        ⟨none, none, Except.ok status, Except.ok headHash, Except.ok (refs, none), rd⟩ opts =
      GoOutcome.ret (opts.imageName ++ ":" ++
        (((refs.reverse.find? fun t => decide (t.hash = headHash)).map TagRef.shortName).getD
          (strTake (hexEncode headHash) 7))) none := by
  have h7 : 7 ≤ (hexEncode headHash).data.length := by
    rw [hexEncode_data_length, hlen]; omega
  simp only [generateFullyQualifiedImageName, goSliceTo_eq_some _ _ h7, hclean, if_true]
  rw [foldl_tagPick]

/-- Witness for C7: exactly one tag `v1.2.3` at HEAD gives `myapp:v1.2.3`. -/
theorem C7_clean_tag_selection_witness :
    generateFullyQualifiedImageName
        ⟨none, none, Except.ok [], Except.ok (List.replicate 20 0),
         Except.ok ([⟨List.replicate 20 0, "v1.2.3"⟩], none), fun _ => Except.error "gone"⟩
        ⟨"myapp"⟩ =
      GoOutcome.ret "myapp:v1.2.3" none := by
  have h := C7_clean_tag_selection [] (List.replicate 20 0) [⟨List.replicate 20 0, "v1.2.3"⟩]
    (fun _ => Except.error "gone") ⟨"myapp"⟩ (by decide) (by decide)
  exact h.trans (by decide)

/-- C1: for a dirty working tree (some entry's worktree status code differs
from unmodified), the function returns
`imageName ++ ":" ++ shortHash ++ "-dirty-" ++ dirtyHash`, where `dirtyHash`
is the first 16 hex characters of the SHA-256 digest of the byte stream that
feeds, for each changed path in sorted order, `"<statusChar> <path>"`
followed (unless the path is deleted) by the file's full byte content. -/
theorem C1_dirty_tag (status : GitStatus) (headHash : List Nat)
    (tg : Except String (List TagRef × Option String)) (rd : String → Except String (List Nat))
    (contents : String → List Nat) (opts : Options)
    (hlen : headHash.length = 20)
    (hdirty : ∃ e ∈ status, e.2.worktree ≠ StatusCode.unmodified)
    (hread : ∀ p ∈ changedPaths status, (lookupFS status p).worktree ≠ StatusCode.deleted →
      rd p = Except.ok (contents p)) :
    generateFullyQualifiedImageName
        ⟨none, none, Except.ok status, Except.ok headHash, tg, rd⟩ opts =
      GoOutcome.ret (opts.imageName ++ ":" ++ strTake (hexEncode headHash) 7 ++ "-dirty-" ++
        strTake (hexEncode (sha256 (specDirtyFeed status contents))) 16) none := by
  have h7 : 7 ≤ (hexEncode headHash).data.length := by
    rw [hexEncode_data_length, hlen]; omega
  have hfeed : dirtyFeed rd status = Except.ok (specDirtyFeed status contents) := by
    unfold dirtyFeed specDirtyFeed
    rw [feedPaths_ok_of_reads rd status contents _ [] hread, List.nil_append]
  have h16 : 16 ≤ (hexEncode (sha256 (specDirtyFeed status contents))).data.length := by
    rw [hexEncode_data_length, sha256_length]; omega
  simp [generateFullyQualifiedImageName, goSliceTo_eq_some _ _ h7,
    isClean_eq_false_of_changed status hdirty, hfeed, goSliceTo_eq_some _ _ h16]

/-- Witness for C1: one modified file with content "hi" and one deleted file. -/
theorem C1_dirty_tag_witness :
    generateFullyQualifiedImageName
        ⟨none, none,
         Except.ok [("old.txt", ⟨StatusCode.unmodified, StatusCode.deleted⟩),
                    ("a.txt", ⟨StatusCode.unmodified, StatusCode.modified⟩)],
         Except.ok (List.replicate 20 0), Except.ok ([], none),
         fun p => if p = "a.txt" then Except.ok [104, 105] else Except.error "no such file"⟩
        ⟨"myapp"⟩ =
      GoOutcome.ret "myapp:0000000-dirty-a5f9bc159679ea95" none := by
  refine (C1_dirty_tag
    [("old.txt", ⟨StatusCode.unmodified, StatusCode.deleted⟩),
     ("a.txt", ⟨StatusCode.unmodified, StatusCode.modified⟩)]
    (List.replicate 20 0) (Except.ok ([], none))
    (fun p => if p = "a.txt" then Except.ok [104, 105] else Except.error "no such file")
    (fun p => if p = "a.txt" then [104, 105] else []) ⟨"myapp"⟩
    (by decide) (by decide) ?_).trans (by decide)
  intro p hp hdel
  have hcp : changedPaths
      [("old.txt", ⟨StatusCode.unmodified, StatusCode.deleted⟩),
       ("a.txt", ⟨StatusCode.unmodified, StatusCode.modified⟩)] = ["a.txt", "old.txt"] := by
    decide
  rw [hcp] at hp
  rcases List.mem_cons.mp hp with rfl | hp
  · rfl
  · rcases List.mem_cons.mp hp with rfl | hp
    · exact absurd (by decide) hdel
    · cases hp

/-- C9: when the status map is unclean yet every entry's worktree-side code is
unmodified (changes only staged in the index), the changed-path list is empty
and the tag ends in `-dirty-` followed by the first 16 hex characters of the
SHA-256 digest of the empty input, a constant independent of the staged
contents. -/
theorem C9_staged_only_constant_suffix (status : GitStatus) (headHash : List Nat)
    (tg : Except String (List TagRef × Option String)) (rd : String → Except String (List Nat))
    (opts : Options)
    (hlen : headHash.length = 20)
    (hunclean : isClean status = false)
    (hall : ∀ e ∈ status, e.2.worktree = StatusCode.unmodified) :
    generateFullyQualifiedImageName
        ⟨none, none, Except.ok status, Except.ok headHash, tg, rd⟩ opts =
      GoOutcome.ret (opts.imageName ++ ":" ++ strTake (hexEncode headHash) 7 ++ "-dirty-" ++
        "e3b0c44298fc1c14") none := by
  have h7 : 7 ≤ (hexEncode headHash).data.length := by
    rw [hexEncode_data_length, hlen]; omega
  have hfeed : dirtyFeed rd status = Except.ok [] := by
    unfold dirtyFeed
    rw [changedPaths_eq_nil_of_unmodified status hall]
    rfl
  have h16 : goSliceTo (hexEncode (sha256 [])) 16 = some "e3b0c44298fc1c14" := by decide
  simp [generateFullyQualifiedImageName, goSliceTo_eq_some _ _ h7, hunclean, hfeed, h16]

/-- Witness for C9: a file added to the index but untouched in the worktree. -/
theorem C9_staged_only_constant_suffix_witness :
    generateFullyQualifiedImageName
        ⟨none, none,
         Except.ok [("staged.txt", ⟨StatusCode.added, StatusCode.unmodified⟩)],
         Except.ok (List.replicate 20 0), Except.ok ([], none),
         fun _ => Except.error "unreadable"⟩
        ⟨"myapp"⟩ =
      GoOutcome.ret "myapp:0000000-dirty-e3b0c44298fc1c14" none := by
  have h := C9_staged_only_constant_suffix
    [("staged.txt", ⟨StatusCode.added, StatusCode.unmodified⟩)]
    (List.replicate 20 0) (Except.ok ([], none)) (fun _ => Except.error "unreadable")
    ⟨"myapp"⟩ (by decide) (by decide) (by decide)
  exact h.trans (by decide)

/-- C3: permuting the iteration order of the status map (whose keys, as Go
map keys, are unique) does not change the result — in particular not the
dirty hash — because the changed paths are sorted before hashing. -/
theorem C3_order_independence (oe we : Option String) (hd : Except String (List Nat))
    (tg : Except String (List TagRef × Option String)) (rd : String → Except String (List Nat))
    (opts : Options) (s1 s2 : GitStatus)
    (hperm : s1.Perm s2) (hnd : (s1.map Prod.fst).Nodup) :
    generateFullyQualifiedImageName ⟨oe, we, Except.ok s1, hd, tg, rd⟩ opts =
      generateFullyQualifiedImageName ⟨oe, we, Except.ok s2, hd, tg, rd⟩ opts := by
  have hic := isClean_eq_of_perm s1 s2 hperm
  have hdf : dirtyFeed rd s1 = dirtyFeed rd s2 := by
    unfold dirtyFeed
    rw [changedPaths_eq_of_perm s1 s2 hperm]
    exact feedPaths_congr_status rd s1 s2 (fun p => lookupFS_eq_of_perm s1 s2 hperm p hnd) _ _
  simp only [generateFullyQualifiedImageName, hic, hdf]

/-- Witness for C3 at a two-entry status map and its reversal. -/
theorem C3_order_independence_witness :
    generateFullyQualifiedImageName
        ⟨none, none,
         Except.ok [("old.txt", ⟨StatusCode.unmodified, StatusCode.deleted⟩),
                    ("a.txt", ⟨StatusCode.unmodified, StatusCode.modified⟩)],
         Except.ok (List.replicate 20 0), Except.ok ([], none),
         fun p => if p = "a.txt" then Except.ok [104, 105] else Except.error "no such file"⟩
        ⟨"myapp"⟩ =
      generateFullyQualifiedImageName
        ⟨none, none,
         Except.ok [("a.txt", ⟨StatusCode.unmodified, StatusCode.modified⟩),
                    ("old.txt", ⟨StatusCode.unmodified, StatusCode.deleted⟩)],
         Except.ok (List.replicate 20 0), Except.ok ([], none),
         fun p => if p = "a.txt" then Except.ok [104, 105] else Except.error "no such file"⟩
        ⟨"myapp"⟩ :=
  C3_order_independence none none (Except.ok (List.replicate 20 0)) (Except.ok ([], none))
    (fun p => if p = "a.txt" then Except.ok [104, 105] else Except.error "no such file")
    ⟨"myapp"⟩
    [("old.txt", ⟨StatusCode.unmodified, StatusCode.deleted⟩),
     ("a.txt", ⟨StatusCode.unmodified, StatusCode.modified⟩)]
    [("a.txt", ⟨StatusCode.unmodified, StatusCode.modified⟩),
     ("old.txt", ⟨StatusCode.unmodified, StatusCode.deleted⟩)]
    (List.Perm.swap ("a.txt", FileStatus.mk StatusCode.unmodified StatusCode.modified)
      ("old.txt", FileStatus.mk StatusCode.unmodified StatusCode.deleted) [])
    (by decide)

/-- C4: the function is deterministic — two invocations against the same
repository state, status map and file contents produce the same tag. -/
theorem C4_deterministic (oe we : Option String) (st : Except String GitStatus)
    (hd : Except String (List Nat)) (tg : Except String (List TagRef × Option String))
    (rd1 rd2 : String → Except String (List Nat)) (opts : Options)
    (hrd : ∀ p, rd1 p = rd2 p) :
    generateFullyQualifiedImageName ⟨oe, we, st, hd, tg, rd1⟩ opts =
      generateFullyQualifiedImageName ⟨oe, we, st, hd, tg, rd2⟩ opts := by
  rw [funext hrd]

/-- Witness for C4. -/
theorem C4_deterministic_witness :
    generateFullyQualifiedImageName
        ⟨none, none, Except.ok [("a.txt", ⟨StatusCode.unmodified, StatusCode.modified⟩)],
         Except.ok (List.replicate 20 0), Except.ok ([], none),
         fun _ => Except.ok [104, 105]⟩ ⟨"myapp"⟩ =
      generateFullyQualifiedImageName
        ⟨none, none, Except.ok [("a.txt", ⟨StatusCode.unmodified, StatusCode.modified⟩)],
         Except.ok (List.replicate 20 0), Except.ok ([], none),
         fun _ => Except.ok [104, 105]⟩ ⟨"myapp"⟩ :=
  C4_deterministic none none
    (Except.ok [("a.txt", ⟨StatusCode.unmodified, StatusCode.modified⟩)])
    (Except.ok (List.replicate 20 0)) (Except.ok ([], none))
    (fun _ => Except.ok [104, 105]) (fun _ => Except.ok [104, 105]) ⟨"myapp"⟩
    (fun _ => rfl)

/-- A contiguous segment of a byte stream. -/
def containsSeg (l seg : List Nat) : Prop := ∃ u v, l = u ++ seg ++ v

/-- C5: a deleted changed path contributes its status line to the hash input
but its content is never read — the feed is unchanged under any reader that
agrees on the non-deleted changed paths (so a read failure at the deleted
path cannot occur), and the successful feed contains the deleted path's
status line. -/
theorem C5_deleted_not_read (status : GitStatus) (rd rd' : String → Except String (List Nat))
    (p : String) (feed : List Nat)
    (hp : p ∈ changedPaths status)
    (hdel : (lookupFS status p).worktree = StatusCode.deleted)
    (hagree : ∀ q ∈ changedPaths status, (lookupFS status q).worktree ≠ StatusCode.deleted →
      rd q = rd' q)
    (hok : dirtyFeed rd status = Except.ok feed) :
    dirtyFeed rd' status = Except.ok feed ∧
      containsSeg feed (statusLineBytes StatusCode.deleted p) := by
  unfold dirtyFeed at hok ⊢
  exact ⟨(feedPaths_ext rd rd' status _ [] hagree).symm.trans hok,
    feedPaths_contains_deleted rd status _ [] feed p hp hdel hok⟩

/-- Witness for C5: the reader errors on the deleted path, yet the feed is
produced and unchanged. -/
theorem C5_deleted_not_read_witness :
    dirtyFeed (fun p => if p = "a.txt" then Except.ok [104, 105] else Except.error "is a directory")
        [("old.txt", ⟨StatusCode.unmodified, StatusCode.deleted⟩),
         ("a.txt", ⟨StatusCode.unmodified, StatusCode.modified⟩)] =
      Except.ok [77, 32, 97, 46, 116, 120, 116, 104, 105, 68, 32, 111, 108, 100, 46, 116, 120, 116] := by
  refine (C5_deleted_not_read
    [("old.txt", ⟨StatusCode.unmodified, StatusCode.deleted⟩),
     ("a.txt", ⟨StatusCode.unmodified, StatusCode.modified⟩)]
    (fun p => if p = "a.txt" then Except.ok [104, 105] else Except.error "no such file")
    (fun p => if p = "a.txt" then Except.ok [104, 105] else Except.error "is a directory")
    "old.txt" [77, 32, 97, 46, 116, 120, 116, 104, 105, 68, 32, 111, 108, 100, 46, 116, 120, 116]
    (by decide) (by decide) ?_ rfl).1
  intro q hq hqdel
  have hcp : changedPaths
      [("old.txt", ⟨StatusCode.unmodified, StatusCode.deleted⟩),
       ("a.txt", ⟨StatusCode.unmodified, StatusCode.modified⟩)] = ["a.txt", "old.txt"] := by
    decide
  rw [hcp] at hq
  rcases List.mem_cons.mp hq with rfl | hq
  · rfl
  · rcases List.mem_cons.mp hq with rfl | hq
    · exact absurd (by decide) hqdel
    · cases hq

/-- C10: the two slicings never go out of range — a 20-byte commit hash hex
encodes to 40 characters, so `commitHash[0:7]` succeeds, and a SHA-256 digest
hex encodes to 64 characters, so `hex(sha)[:16]` succeeds. -/
theorem C10_slices_total (h m : List Nat) (hlen : h.length = 20) :
    (hexEncode h).data.length = 40 ∧ (hexEncode (sha256 m)).data.length = 64 ∧
      (goSliceTo (hexEncode h) 7).isSome = true ∧
      (goSliceTo (hexEncode (sha256 m)) 16).isSome = true := by
  have h1 : (hexEncode h).data.length = 40 := by rw [hexEncode_data_length, hlen]
  have h2 : (hexEncode (sha256 m)).data.length = 64 := by
    rw [hexEncode_data_length, sha256_length]
  refine ⟨h1, h2, ?_, ?_⟩
  · rw [goSliceTo_eq_some _ _ (by omega)]; rfl
  · rw [goSliceTo_eq_some _ _ (by omega)]; rfl

/-- Witness for C10. -/
theorem C10_slices_total_witness :
    (hexEncode (List.replicate 20 0)).data.length = 40 ∧
      (hexEncode (sha256 [])).data.length = 64 ∧
      (goSliceTo (hexEncode (List.replicate 20 0)) 7).isSome = true ∧
      (goSliceTo (hexEncode (sha256 [])) 16).isSome = true :=
  C10_slices_total (List.replicate 20 0) [] (by decide)

/-- C6 counterexample: a failure of the tags-listing call (`repo.Tags()`)
in the clean case is not returned as a stage-labelled error with an empty
tag — its error is discarded (`tagrefs, _ := repo.Tags()`) and the nil
iterator is dereferenced, so the call panics instead of returning. -/
theorem C6_counterexample :
    generateFullyQualifiedImageName
        ⟨none, none, Except.ok [], Except.ok (List.replicate 20 1), Except.error "lock held",
         fun _ => Except.ok []⟩ ⟨"img"⟩ = GoOutcome.panicked ∧
      generateFullyQualifiedImageName
        ⟨none, none, Except.ok [], Except.ok (List.replicate 20 1), Except.error "lock held",
         fun _ => Except.ok []⟩ ⟨"img"⟩ ≠
        GoOutcome.ret "" (some ⟨"determining git tag", "lock held"⟩) := by
  constructor
  · decide
  · decide

/-- C6 amended: whenever `GenerateFullyQualifiedImageName` returns an error,
the tag is the empty string and the error carries one of the six stage
labels; the failure of the tags-listing call itself is the one failure not
returned as an error (its error is discarded and a nil-iterator panic
follows, see the counterexample). -/
theorem C6_error_atomicity (env : GitEnv) (opts : Options) (t : String) (e : GoErr)
    (h : generateFullyQualifiedImageName env opts = GoOutcome.ret t (some e)) :
    t = "" ∧ (e.stage = "opening git repo" ∨ e.stage = "reading worktree" ∨
      e.stage = "reading status" ∨ e.stage = "determining current git commit" ∨
      e.stage = "determining git tag" ∨ e.stage = "reading diff") := by
  obtain ⟨oe, we, st, hd, tg, rd⟩ := env
  simp only [generateFullyQualifiedImageName] at h
  repeat' split at h
  all_goals try exact GoOutcome.noConfusion h
  all_goals injection h with h1 h2
  all_goals try exact Option.noConfusion h2
  all_goals injection h2 with h3
  all_goals subst h1
  all_goals subst h3
  all_goals exact ⟨rfl, by simp⟩

/-- Witness for C6's amended claim, at a failing repository open. -/
theorem C6_error_atomicity_witness :
    ("" : String) = "" ∧
      ((GoErr.mk "opening git repo" "io fail").stage = "opening git repo" ∨
       (GoErr.mk "opening git repo" "io fail").stage = "reading worktree" ∨
       (GoErr.mk "opening git repo" "io fail").stage = "reading status" ∨
       (GoErr.mk "opening git repo" "io fail").stage = "determining current git commit" ∨
       (GoErr.mk "opening git repo" "io fail").stage = "determining git tag" ∨
       (GoErr.mk "opening git repo" "io fail").stage = "reading diff") :=
  C6_error_atomicity
    ⟨some "io fail", none, Except.ok [], Except.ok [], Except.ok ([], none),
     fun _ => Except.ok []⟩ ⟨"img"⟩ "" ⟨"opening git repo", "io fail"⟩ (by decide)

/-- C8 counterexample: the error returned by the tags-listing call
`repo.Tags()` is silently discarded (`tagrefs, _ := repo.Tags()`), so this
tag-enumeration failure is never surfaced as a wrapped error — the call
panics on the nil iterator instead. -/
theorem C8_counterexample :
    generateFullyQualifiedImageName
        ⟨none, none, Except.ok [], Except.ok (List.replicate 20 2), Except.error "refs db corrupt",
         fun _ => Except.ok []⟩ ⟨"img"⟩ = GoOutcome.panicked ∧
      ∀ c : String, generateFullyQualifiedImageName
        ⟨none, none, Except.ok [], Except.ok (List.replicate 20 2), Except.error "refs db corrupt",
         fun _ => Except.ok []⟩ ⟨"img"⟩ ≠
          GoOutcome.ret "" (some ⟨"determining git tag", c⟩) := by
  constructor
  · decide
  · intro c hc
    rw [show generateFullyQualifiedImageName
        ⟨none, none, Except.ok [], Except.ok (List.replicate 20 2), Except.error "refs db corrupt",
         fun _ => Except.ok []⟩ ⟨"img"⟩ = GoOutcome.panicked from by decide] at hc
    cases hc

/-- C8 amended: an error produced during the tag iteration (`ForEach`) is
surfaced to the caller wrapped with the "determining git tag" stage label;
only the error of the tags-listing call itself is discarded. -/
theorem C8_iteration_error_surfaced (status : GitStatus) (headHash : List Nat)
    (refs : List TagRef) (e : String) (rd : String → Except String (List Nat)) (opts : Options)
    (hclean : isClean status = true) (hlen : headHash.length = 20) :
    generateFullyQualifiedImageName
        ⟨none, none, Except.ok status, Except.ok headHash, Except.ok (refs, some e), rd⟩ opts =
      GoOutcome.ret "" (some ⟨"determining git tag", e⟩) := by
  have h7 : 7 ≤ (hexEncode headHash).data.length := by
    rw [hexEncode_data_length, hlen]; omega
  simp only [generateFullyQualifiedImageName, goSliceTo_eq_some _ _ h7, hclean, if_true]

/-- Witness for C8's amended claim. -/
theorem C8_iteration_error_surfaced_witness :
    generateFullyQualifiedImageName
        ⟨none, none, Except.ok [], Except.ok (List.replicate 20 3),
         Except.ok ([⟨List.replicate 20 3, "v1"⟩], some "packed-refs truncated"),
         fun _ => Except.ok []⟩ ⟨"img"⟩ =
      GoOutcome.ret "" (some ⟨"determining git tag", "packed-refs truncated"⟩) :=
  C8_iteration_error_surfaced [] (List.replicate 20 3) [⟨List.replicate 20 3, "v1"⟩]
    "packed-refs truncated" (fun _ => Except.ok []) ⟨"img"⟩ (by decide) (by decide)

end SkaffoldGitTag
